import Mathlib

set_option maxHeartbeats 1000000

namespace Giza

/-! Shallow embedding of the Giza core: the hierarchical `Store`
(src/unnamed/part_001), the `Bubbler` event bus (src/unnamed/part_000) and
the facade wiring (src/lib/main.js).  JavaScript values are modelled by
`JsVal`; the store tree (nested underscore `Map` objects) by `JTree`, a
key/value node whose keys beginning with the separator hold child nodes.
Fallible JavaScript control flow (thrown `TypeError`s, invalid-filter
errors) is modelled with `Except String`. -/

inductive JsVal where
  | num (n : Int)
  | str (s : String)
  | boolean (b : Bool)
  | null
deriving DecidableEq, Repr

/-- A JavaScript value stored in the tree: either an opaque caller value
(`prim`) or a nested `Map` node (`node`), whose entries keep insertion
order exactly like JavaScript object properties. -/
inductive JTree where
  | prim (v : JsVal)
  | node (es : List (String × JTree))
deriving Repr

namespace JTree

/-- Property lookup on a node object (first matching key). -/
def mget (k : String) : List (String × JTree) → Option JTree
  | [] => none
  | (k', v) :: rest => if k' = k then some v else mget k rest

/-- Property assignment: an existing key is overwritten in place, a new key
is appended, mirroring JavaScript property insertion order. -/
def mset (k : String) (v : JTree) : List (String × JTree) → List (String × JTree)
  | [] => [(k, v)]
  | (k', v') :: rest => if k' = k then (k, v) :: rest else (k', v') :: mset k v rest

/-- Embedding of `_.has(node, k)` on a node object. -/
def mhas (k : String) (es : List (String × JTree)) : Bool :=
  (mget k es).isSome

/-- Embedding of `_.has(value, k)` on an arbitrary value: property checks on
primitives are always false. -/
def treeHas : JTree → String → Bool
  | .node es, k => mhas k es
  | .prim _, _ => false

end JTree

open JTree

/-- Embedding of `key.match(/^\//)`: does the key start with the separator? -/
def isChildKey (k : String) : Bool :=
  k.data.head? == some '/'

/-- Embedding of `path.replace(/\/+$/, '')`: strip every trailing slash. -/
def trimTrailing (s : String) : String :=
  String.mk ((s.data.reverse.dropWhile (fun c => c == '/')).reverse)

/-- Character-level `split('/')`: splitting the empty text yields one
empty piece, as in JavaScript. -/
def splitSlash : List Char → List (List Char)
  | [] => [[]]
  | c :: rest =>
      if c = '/' then [] :: splitSlash rest
      else
        match splitSlash rest with
        | [] => [[c]]
        | s :: ss => (c :: s) :: ss

/-- Embedding of the layer computation in `parsePath`:
`path.split('/')`, then `shift()` past the root level, each remaining
layer being addressed as `'/' + layer`. -/
def layersOf (p : String) : List String :=
  ((splitSlash p.data).drop 1).map (fun s => String.mk ('/' :: s))

mutual
/-- Well-formedness of a tree value: every child-key entry (key starting
with the separator) holds a node, recursively.  This is the §3 data-model
invariant of the spec — callers must not use the separator prefix for
literal keys — under which every layer walk meets only nodes. -/
def wfb : JTree → Bool
  | .prim _ => true
  | .node es => wfbL es

/-- Well-formedness of a node entry list. -/
def wfbL : List (String × JTree) → Bool
  | [] => true
  | (k, t) :: rest =>
      (if isChildKey k then (match t with | .node es2 => wfbL es2 | .prim _ => false) else true)
      && wfbL rest
end

/-- Non-creating walk of `parsePath`: returns the current node, or `none`
when a layer is missing (`parsePath` returns `false`).  A property check on
a primitive is false, so walking into a stored primitive also fails. -/
def walk : List String → JTree → Option JTree
  | [], t => some t
  | k :: rest, .node es =>
      match mget k es with
      | some t => walk rest t
      | none => none
  | _ :: _, .prim _ => none

/-- Where the create-mode walk of `parsePath` ends up: on a node, on a
stored primitive, or on `undefined` (one step past a primitive, where the
silent no-op assignment `prim[layer] = new Map()` left nothing behind). -/
inductive WalkEnd where
  | nodeEnd
  | primEnd
  | undefEnd
deriving DecidableEq, Repr

/-- Create-mode walk of `parsePath`: missing layers are auto-vivified with
fresh nodes and the `created` flag is set.  Stepping past a primitive sets
`created`, silently fails to attach the fresh node, and leaves the cursor
`undefined`; one further step then throws (`undefined[layer] = ...`). -/
def createWalk : List String → JTree → Except String (JTree × Bool × WalkEnd)
  | [], t =>
      .ok (t, false, match t with | .node _ => .nodeEnd | .prim _ => .primEnd)
  | k :: rest, .node es =>
      match mget k es with
      | some child =>
          match createWalk rest child with
          | .ok (c', cr, e) => .ok (.node (mset k c' es), cr, e)
          | .error e => .error e
      | none =>
          match createWalk rest (.node []) with
          | .ok (c', _, e) => .ok (.node (mset k c' es), true, e)
          | .error e => .error e
  | _ :: rest, .prim v =>
      match rest with
      | [] => .ok (.prim v, true, .undefEnd)
      | _ :: _ => .error "TypeError"

/-- Functional counterpart of the in-place assignment
`nodes.current[key] = val` at the end of a layer walk (assignment onto a
stored primitive is a silent no-op, as in sloppy-mode JavaScript). -/
def setAt : List String → String → JsVal → JTree → JTree
  | [], key, v, .node es => .node (mset key (.prim v) es)
  | [], _, _, .prim p => .prim p
  | k :: rest, key, v, .node es =>
      match mget k es with
      | some c => .node (mset k (setAt rest key v c) es)
      | none => .node es
  | _ :: _, _, _, .prim p => .prim p

/-- Functional counterpart of `delete nodes.parent[nodes.dirName]`:
remove the final layer from its parent node. -/
def removeAt : List String → JTree → JTree
  | [], t => t
  | [k], .node es => .node (es.filter (fun kt => kt.1 ≠ k))
  | k :: k2 :: rest, .node es =>
      match mget k es with
      | some c => .node (mset k (removeAt (k2 :: rest) c) es)
      | none => .node es
  | _ :: _, .prim p => .prim p

/-- Functional counterpart of `delete nodes.current[key]`: remove a key on
the node reached by the layer walk. -/
def removeKeyAt : List String → String → JTree → JTree
  | [], key, .node es => .node (es.filter (fun kt => kt.1 ≠ key))
  | [], _, .prim p => .prim p
  | k :: rest, key, .node es =>
      match mget k es with
      | some c => .node (mset k (removeKeyAt rest key c) es)
      | none => .node es
  | _ :: _, _, .prim p => .prim p

/-- One observable step of a `Store` operation: a call
`bubbler.emit(path, event)` or the tree mutation itself. -/
inductive TraceItem where
  | emit (path : String) (event : String)
  | assign
deriving DecidableEq, Repr

namespace Store

/-- The create-mode flag that `Store.save` actually computes for a call:
the `created` flag of the create-mode `parsePath` walk.  The subsequent
`if (createMode && !_.has(nodes.current, key)) createMode = true;` in the
source is a no-op and cannot change it. -/
def saveCreateMode (t : JTree) (path key : String) : Bool :=
  match createWalk (layersOf (trimTrailing path)) t with
  | .ok (_, created, _) => created
  | .error _ => false

/-- Whether the resolved current value has the key (the dead guard in
`save` reads this through `_.has`). -/
def currentHas (t : JTree) (layers : List String) (e : WalkEnd) (key : String) : Bool :=
  match e with
  | .nodeEnd =>
      match walk layers t with
      | some cur => treeHas cur key
      | none => false
  | _ => false

/-- The expected event/mutation trace of a completed `save`, as a function
of the create-mode flag. -/
def saveTrace (p : String) (createMode : Bool) : List TraceItem :=
  (if createMode then [TraceItem.emit p "pre-create"] else []) ++
  [TraceItem.emit p "pre-update", TraceItem.assign] ++
  (if createMode then [TraceItem.emit p "post-create"] else []) ++
  [TraceItem.emit p "post-update"]

/-- Embedding of `Store.save(path, key, val)`.  The result is the new tree
together with the ordered trace of emitted events and the mutation; a
thrown `TypeError` (assignment through `undefined`) is an `error`. -/
def save (t : JTree) (path key : String) (v : JsVal) :
    Except String (JTree × List TraceItem) :=
  let p := trimTrailing path
  let layers := layersOf p
  match createWalk layers t with
  | .error e => .error e
  | .ok (t1, created, en) =>
      let createMode := created
      -- The source here runs `if (createMode && !_.has(nodes.current, key))
      -- createMode = true;`, which leaves `createMode` unchanged.
      let createMode := if createMode && !(currentHas t1 layers en key) then true else createMode
      match en with
      | .undefEnd => .error "TypeError"
      | .primEnd =>
          .ok (t1,
            (if createMode then [TraceItem.emit p "pre-create"] else []) ++
            [TraceItem.emit p "pre-update", TraceItem.assign] ++
            (if createMode then [TraceItem.emit p "post-create"] else []) ++
            [TraceItem.emit p "post-update"])
      | .nodeEnd =>
          .ok (setAt layers key v t1,
            (if createMode then [TraceItem.emit p "pre-create"] else []) ++
            [TraceItem.emit p "pre-update", TraceItem.assign] ++
            (if createMode then [TraceItem.emit p "post-create"] else []) ++
            [TraceItem.emit p "post-update"])

/-- Result of `Store.get`: the JavaScript `undefined`, a stored value or
subtree, or the object assembled by `_.pick` over the non-child keys. -/
inductive GetRes where
  | undefined
  | entry (t : JTree)
  | assembled (es : List (String × JTree))
deriving Repr

/-- The keys kept by the non-recursive no-key `get`: everything not
matching `/^\//`. -/
def leafEntries (es : List (String × JTree)) : List (String × JTree) :=
  es.filter (fun kt => !isChildKey kt.1)

/-- Embedding of `Store.get(path, key, recursive)`.  When the path does not
resolve, `parsePath` returns `false` and the source reads
`false.current`, which is `undefined`: with a key the call then returns
`undefined`, without a key it assembles `_.pick(undefined, [])`, the empty
object — there is no explicit failure. -/
def get (t : JTree) (path : String) (key : Option String) (recursive : Bool) : GetRes :=
  let p := trimTrailing path
  let layers := layersOf p
  let curOpt := walk layers t
  match key with
  | none =>
      if recursive then
        match curOpt with
        | some cur => .entry cur
        | none => .undefined
      else
        match curOpt with
        | some (.node es) => .assembled (leafEntries es)
        | some (.prim _) => .assembled []
        | none => .assembled []
  | some k =>
      match curOpt with
      | some (.node es) =>
          match mget k es with
          | some v => .entry v
          | none => .undefined
      | some (.prim _) => .undefined
      | none => .undefined

/-- Embedding of `Store.delete(path, key?)`.  A keyless delete on an
unresolved path reads `false.parent`, which is `undefined`, and
`delete undefined[dirName]` throws a `TypeError`; a keyed delete on an
unresolved path sees `_.has(undefined, key) = false` and returns `false`
with no emission, indistinguishable from the key-absent case. -/
def delete (t : JTree) (path : String) (key : Option String) :
    Except String (Bool × JTree × List TraceItem) :=
  let p := trimTrailing path
  let layers := layersOf p
  let curOpt := walk layers t
  match key with
  | none =>
      match curOpt with
      | none => .error "TypeError"
      | some _ =>
          if layers.isEmpty then .error "TypeError"
          else .ok (true, removeAt layers t,
            [TraceItem.emit p "pre-delete", TraceItem.assign, TraceItem.emit p "post-delete"])
  | some k =>
      match curOpt with
      | none => .ok (false, t, [])
      | some cur =>
          if treeHas cur k then
            .ok (true, removeKeyAt layers k t,
              [TraceItem.emit p "pre-delete", TraceItem.assign, TraceItem.emit p "post-delete"])
          else .ok (false, t, [])

end Store

/-! The Bubbler (src/unnamed/part_000): dual-channel event bus with
subscription filtering and the recursive upward-bubbling dispatch. -/

/-- A `types` or `names` constraint value on a filter object: absent
(`absent`), a single string, an array of strings, or any other JavaScript
value (which `matchFilter` rejects with a thrown error). -/
inductive FVal where
  | absent
  | str (s : String)
  | arr (l : List String)
  | invalid
deriving DecidableEq, Repr

/-- A filter object passed in `options.filters`. -/
structure Filter where
  types : FVal
  names : FVal
deriving DecidableEq, Repr

/-- The `types` check of one loop iteration of `matchFilter`: `ok true`
means `return false` fires, `error` models the thrown invalid-types error.
A string constraint is compared with `!=` against the type, so it fails on
an absent type as well. -/
def filterTypesFail (tv : FVal) (ty : Option String) : Except String Bool :=
  match tv with
  | .absent => .ok false
  | .arr l => .ok (!l.isEmpty && !(match ty with | some t => l.contains t | none => false))
  | .str s => .ok (ty != some s)
  | .invalid => .error "Invalid types provided, must either be a string or an array of strings"

/-- The `names` check of one loop iteration of `matchFilter`.  Unlike the
`types` check, a `names` value that is the empty string passes through
(`typeof thisFilter.names === 'undefined' || thisFilter.names === ''`). -/
def filterNamesFail (nv : FVal) (ev : String) : Except String Bool :=
  match nv with
  | .absent => .ok false
  | .str s => .ok (if s = "" then false else s != ev)
  | .arr l => .ok (!l.isEmpty && !l.contains ev)
  | .invalid => .error "Invalid name provided, must either be a string or an array of strings"

/-- Embedding of `matchFilter(eventName, type, filters)`: iterate the
filters in order, exiting with `false` on the first mismatch and raising on
the first invalid constraint value reached. -/
def matchFilter (evName : String) (ty : Option String) : List Filter → Except String Bool
  | [] => .ok true
  | f :: rest =>
      match filterTypesFail f.types ty with
      | .error e => .error e
      | .ok true => .ok false
      | .ok false =>
          match filterNamesFail f.names evName with
          | .error e => .error e
          | .ok true => .ok false
          | .ok false => matchFilter evName ty rest

/-- Whether a constraint value is a string or an array (anything else makes
`matchFilter` throw when reached). -/
def validFVal : FVal → Bool
  | .invalid => false
  | _ => true

/-- Whether both constraint values of a filter are valid. -/
def validFilter (f : Filter) : Bool :=
  validFVal f.types && validFVal f.names

/-- Pass predicate for a `types` constraint: absent, an empty list, a list
containing the type, or a string equal to the type. -/
def fMatchTypes (tv : FVal) (ty : Option String) : Bool :=
  match tv with
  | .absent => true
  | .arr l => l.isEmpty || (match ty with | some t => l.contains t | none => false)
  | .str s => ty == some s
  | .invalid => false

/-- Pass predicate for a `names` constraint as `matchFilter` implements it:
like the `types` rule, plus the empty-string pass-through. -/
def fMatchNames (nv : FVal) (ev : String) : Bool :=
  match nv with
  | .absent => true
  | .str s => s == "" || s == ev
  | .arr l => l.isEmpty || l.contains ev
  | .invalid => false

/-- The per-filter pass predicate actually implemented by `matchFilter` for
valid filters. -/
def filterMatches (evName : String) (ty : Option String) (f : Filter) : Bool :=
  fMatchTypes f.types ty && fMatchNames f.names evName

/-- Pass predicate for a `names` constraint as the claim words it: exactly
symmetric to the `types` rule, with no empty-string special case. -/
def fMatchNamesClaim (nv : FVal) (ev : String) : Bool :=
  match nv with
  | .absent => true
  | .str s => s == ev
  | .arr l => l.isEmpty || l.contains ev
  | .invalid => false

/-- Modelled from the spec (claim text for `matchFilter`, used only for
comparison with the code): a single filter matches when its `types`
constraint is absent, equals the type as a single string, or is a
non-empty list containing the type (empty list means no constraint), and
symmetrically for `names` against the event name. -/
def filterMatchesClaim (evName : String) (ty : Option String) (f : Filter) : Bool :=
  fMatchTypes f.types ty && fMatchNamesClaim f.names evName

/-- Modelled from the spec (claim text): the claimed contract of
`matchFilter` as a whole — raise on any invalid filter in the set,
otherwise succeed exactly when every filter matches. -/
def matchFilterClaim (evName : String) (ty : Option String) (fs : List Filter) : Except String Bool :=
  if fs.any (fun f => !validFilter f) then
    .error "InvalidFilter"
  else
    .ok (fs.all (filterMatchesClaim evName ty))

/-- A registered filtering wrapper (`filteredCallback`): the raw callback
identity, the stored filter array, and the `triggered` option. -/
structure Wrapper where
  cb : Nat
  filters : List Filter
  triggered : Bool
deriving DecidableEq, Repr

/-- A Bubbler instance: the two `EventEmitter` registries (path, wrapper)
in registration order, the wrapper table, and the `$callbacks` bookkeeping
object mapping raw callback identity to its current wrapper. -/
structure BubblerState where
  nextW : Nat
  wrappers : List (Nat × Wrapper)
  eventBus : List (String × Nat)
  bubbleBus : List (String × Nat)
  callbacks : List (Nat × Nat)
deriving Repr

def initBubbler : BubblerState := ⟨0, [], [], [], []⟩

/-- Modelled from the spec: `PathUtil.cleanPath` lives in core/path-util,
which is not under src/.  Per the spec, any run of trailing separators is
stripped and an empty result denotes the root. -/
def cleanPath (s : String) : String := trimTrailing s

/-- Options accepted by `subscribe` (absent fields model absent keys). -/
structure SubOptions where
  bubble : Option Bool
  filters : Option (List Filter)
  triggered : Option Bool
deriving Repr

/-- Object property update with overwrite, for the `$callbacks` map. -/
def assocSet (k v : Nat) : List (Nat × Nat) → List (Nat × Nat)
  | [] => [(k, v)]
  | (k', v') :: rest => if k' = k then (k, v) :: rest else (k', v') :: assocSet k v rest

/-- Look a wrapper up by identity. -/
def lookupW (st : BubblerState) (wid : Nat) : Option Wrapper :=
  (st.wrappers.find? (fun p => p.1 == wid)).map (fun p => p.2)

/-- Embedding of `Bubbler.subscribe(path, callback, options)`.  When no
filters are supplied the source wraps the placeholder `false` into the
array `[false]`; property access on `false` yields `undefined`, so that
placeholder is the all-`absent` filter here.  The wrapper always joins the
direct bus and joins the bubble bus unless `bubble` is present and false. -/
def subscribe (st : BubblerState) (path : String) (cb : Nat) (opts : Option SubOptions) :
    BubblerState :=
  let bubble := match opts with
    | none => true
    | some o => match o.bubble with | none => true | some b => b
  let filters := match opts with
    | none => [Filter.mk .absent .absent]
    | some o => match o.filters with
      | none => [Filter.mk .absent .absent]
      | some fs => fs
  let trig := match opts with
    | none => true
    | some o => match o.triggered with | none => true | some b => b
  let p := cleanPath path
  let wid := st.nextW
  { nextW := wid + 1
    wrappers := st.wrappers ++ [(wid, Wrapper.mk cb filters trig)]
    eventBus := st.eventBus ++ [(p, wid)]
    bubbleBus := if bubble then st.bubbleBus ++ [(p, wid)] else st.bubbleBus
    callbacks := assocSet cb wid st.callbacks }

/-- First-occurrence deduplication, as `_.union` produces. -/
def dedupFirst : List Nat → List Nat
  | [] => []
  | x :: xs => x :: dedupFirst (xs.filter (fun y => y != x))
termination_by l => l.length
decreasing_by
  simp only [List.length_cons]
  exact Nat.lt_succ_of_le (List.length_filter_le _ _)

/-- The wrappers registered at exactly `p`, across both buses, as
`_.union($eventBus.listeners(p), $bubbleBus.listeners(p))` computes. -/
def listenersAt (st : BubblerState) (p : String) : List Nat :=
  dedupFirst (((st.eventBus.filter (fun e => e.1 == p)).map (fun e => e.2)) ++
              ((st.bubbleBus.filter (fun e => e.1 == p)).map (fun e => e.2)))

/-- Embedding of `Bubbler.clearSubscriptions(path)`: drop from the
`$callbacks` bookkeeping every entry whose wrapper is among the listeners
at `path`, then `removeAllListeners(path)` on both buses. -/
def clearSubscriptions (st : BubblerState) (p : String) : BubblerState :=
  let listeners := listenersAt st p
  { st with
    callbacks := st.callbacks.filter (fun cw => !listeners.contains cw.2)
    eventBus := st.eventBus.filter (fun e => e.1 != p)
    bubbleBus := st.bubbleBus.filter (fun e => e.1 != p) }

/-- Embedding of `path.substring(0, path.lastIndexOf('/'))`, computed from
the right: drop the last segment together with its leading slash. -/
def chopLast (l : List Char) : List Char :=
  (((l.reverse).dropWhile (fun c => c != '/')).tail).reverse

theorem chopLast_length_lt (l : List Char) (h : '/' ∈ l) :
    (chopLast l).length < l.length := by
  unfold chopLast
  rw [List.length_reverse]
  have h1 : '/' ∈ l.reverse := List.mem_reverse.mpr h
  have h2 : l.reverse.dropWhile (fun c => c != '/') ≠ [] := by
    rw [Ne, List.dropWhile_eq_nil_iff]
    intro hall
    have := hall '/' h1
    simp at this
  have h3 : (l.reverse.dropWhile (fun c => c != '/')).length ≤ l.reverse.length :=
    (List.dropWhile_suffix _).sublist.length_le
  have h4 : (l.reverse.dropWhile (fun c => c != '/')).tail.length <
      (l.reverse.dropWhile (fun c => c != '/')).length := by
    cases hdw : l.reverse.dropWhile (fun c => c != '/') with
    | nil => exact absurd hdw h2
    | cons b bs => simp
  calc (l.reverse.dropWhile (fun c => c != '/')).tail.length
      < (l.reverse.dropWhile (fun c => c != '/')).length := h4
    _ ≤ l.reverse.length := h3
    _ = l.length := List.length_reverse l

/-- Fuelled recursion for `bubbleEvent`; the fuel only certifies
termination, `bubblePaths` supplies enough of it (the path length) and the
unfolding law `bubblePaths_eq` below shows the fuel is invisible. -/
def bubblePathsAux : Nat → List Char → List (List Char)
  | 0, _ => []
  | n + 1, l =>
      if '/' ∈ l then
        if chopLast l = [] then [['/']]
        else chopLast l :: bubblePathsAux n (chopLast l)
      else []

/-- Embedding of `bubbleEvent`: the successive values taken by `args[0]`
while climbing — trim the path at its last slash, dispatch there, and
recurse until the trimmed path is empty, in which case a single dispatch
happens at the root path `'/'` and the climb stops. -/
def bubblePaths (l : List Char) : List (List Char) :=
  bubblePathsAux l.length l

theorem bubblePathsAux_congr :
    ∀ (n m : Nat) (l : List Char), l.length ≤ n → l.length ≤ m →
      bubblePathsAux n l = bubblePathsAux m l := by
  intro n
  induction n using Nat.strong_induction_on with
  | _ n ih =>
      intro m l hn hm
      match n, m with
      | 0, 0 => rfl
      | 0, m + 1 =>
          have : l = [] := List.length_eq_zero.mp (Nat.le_zero.mp hn)
          subst this
          simp [bubblePathsAux]
      | n + 1, 0 =>
          have : l = [] := List.length_eq_zero.mp (Nat.le_zero.mp hm)
          subst this
          simp [bubblePathsAux]
      | n + 1, m + 1 =>
          rw [bubblePathsAux, bubblePathsAux]
          by_cases hmem : '/' ∈ l
          · simp only [if_pos hmem]
            by_cases hc : chopLast l = []
            · simp [hc]
            · simp only [if_neg hc]
              have hlt := chopLast_length_lt l hmem
              rw [ih n (Nat.lt_succ_self n) m (chopLast l) (by omega) (by omega)]
          · simp [hmem]

theorem bubblePaths_eq (l : List Char) :
    bubblePaths l =
      if '/' ∈ l then
        if chopLast l = [] then [['/']]
        else chopLast l :: bubblePaths (chopLast l)
      else [] := by
  unfold bubblePaths
  cases hl : l.length with
  | zero =>
      have : l = [] := List.length_eq_zero.mp hl
      subst this
      simp [bubblePathsAux]
  | succ n =>
      rw [bubblePathsAux]
      by_cases hmem : '/' ∈ l
      · simp only [if_pos hmem]
        by_cases hc : chopLast l = []
        · simp [hc]
        · simp only [if_neg hc]
          have hlt := chopLast_length_lt l hmem
          rw [bubblePathsAux_congr n (chopLast l).length (chopLast l) (by omega) (Nat.le_refl _)]
      · simp [hmem]

/-- The bubble dispatch paths of an emission path, as strings. -/
def bubblePathsStr (p : String) : List String :=
  (bubblePaths p.data).map (fun l => String.mk l)

/-- Render a canonical absolute path from its segments: the root is the
empty text, other paths are the segments each preceded by a slash. -/
def render (segs : List (List Char)) : List Char :=
  segs.foldl (fun a s => a ++ '/' :: s) []

/-- The strict ancestors of a segment path, nearest first, with the root
rendered as the single-slash path — the dispatch targets claimed for
bubbling. -/
def ancestors (segs : List (List Char)) : List (List Char) :=
  ((List.range segs.length).reverse).map
    (fun i => if i = 0 then ['/'] else render (segs.take i))

/-- Which bus a dispatch happened on. -/
inductive Bus where
  | direct
  | bubble
deriving DecidableEq, Repr

/-- One callback invocation produced by an emission: which wrapper fired,
on which bus, the registration path, the value of `args[0]` at dispatch
time, and the event-source fields seen by the callback. -/
structure Invocation where
  wid : Nat
  cb : Nat
  bus : Bus
  regPath : String
  argPath : String
  event : String
  srcPath : String
  srcTriggered : Bool
  srcType : Option String
deriving DecidableEq, Repr

/-- Embedding of the `filteredCallback` guard:
`!filters || matchFilter(event, type, filters) && (triggered ||
source.triggered === false)` — the stored filter array is never the
literal `false`, so only the right disjunct remains. -/
def wrapperFires (w : Wrapper) (evName : String) (sTy : Option String) (sTrig : Bool) :
    Except String Bool :=
  match matchFilter evName sTy w.filters with
  | .error e => .error e
  | .ok m => .ok (m && (w.triggered || sTrig == false))

/-- Dispatch on one bus at one path: run every registered wrapper whose
registration path equals the dispatch path, in registration order,
collecting the invocations of callbacks whose guard passes; a thrown
filter error aborts the remaining dispatch. -/
def dispatchAt (st : BubblerState) (bus : Bus) (q evName : String)
    (sTy : Option String) (sTrig : Bool) (srcPath : String) :
    List (String × Nat) → Except String (List Invocation)
  | [] => .ok []
  | (rp, wid) :: rest =>
      if rp = q then
        match lookupW st wid with
        | none => dispatchAt st bus q evName sTy sTrig srcPath rest
        | some w =>
            match wrapperFires w evName sTy sTrig with
            | .error e => .error e
            | .ok fire =>
                match dispatchAt st bus q evName sTy sTrig srcPath rest with
                | .error e => .error e
                | .ok tl =>
                    .ok (if fire then
                      Invocation.mk wid w.cb bus rp q evName srcPath sTrig sTy :: tl
                    else tl)
      else dispatchAt st bus q evName sTy sTrig srcPath rest

/-- The bubbling loop: dispatch on the bubble bus at each ancestor path in
order. -/
def goBubble (st : BubblerState) (evName : String) (sTy : Option String)
    (sTrig : Bool) (srcPath : String) : List String → Except String (List Invocation)
  | [] => .ok []
  | q :: rest =>
      match dispatchAt st .bubble q evName sTy sTrig srcPath st.bubbleBus with
      | .error e => .error e
      | .ok l1 =>
          match goBubble st evName sTy sTrig srcPath rest with
          | .error e => .error e
          | .ok l2 => .ok (l1 ++ l2)

/-- An `emit` event argument: a plain name, or an object-style event with a
`triggered` flag. -/
inductive EventArg where
  | name (s : String)
  | obj (s : String) (triggered : Bool)
deriving DecidableEq, Repr

/-- How a value supplied positionally ends up in `source.type`. -/
def asTypeStr : JsVal → Option String
  | .str s => some s
  | _ => none

/-- The event name after parsing an object-style event. -/
def evNameOf : EventArg → String
  | .name s => s
  | .obj s _ => s

/-- The `source.triggered` flag: false for a plain event name. -/
def trigOf : EventArg → Bool
  | .name _ => false
  | .obj _ tr => tr

/-- The `(type, obj)` pair placed on the event source.  `storeLookup` is
the answer of the attached store for the cleaned path (`none` when the
Bubbler was constructed without a store, as the Giza facade does); for a
plain `delete` event with exactly two extra arguments the source uses
those verbatim instead, and the store is never consulted. -/
def sourceTyObj (storeLookup : Option (Option String × Option JsVal))
    (ev : EventArg) (extra : List JsVal) : Option String × Option JsVal :=
  match storeLookup with
  | none => (none, none)
  | some tl =>
      match ev, extra with
      | .name "delete", [tyv, obv] => (asTypeStr tyv, some obv)
      | _, _ => tl

/-- Embedding of `Bubbler.emit(path, event, ...extra)`: build the event
source, then dispatch on the direct bus at exactly the cleaned path and
recursively on the bubble bus along every `bubblePaths` step.  The result
is the ordered list of callback invocations. -/
def emit (st : BubblerState) (path : String) (ev : EventArg)
    (storeLookup : Option (Option String × Option JsVal)) (extra : List JsVal) :
    Except String (List Invocation) :=
  match dispatchAt st .direct (cleanPath path) (evNameOf ev)
      (sourceTyObj storeLookup ev extra).1 (trigOf ev) (cleanPath path) st.eventBus with
  | .error e => .error e
  | .ok d =>
      match goBubble st (evNameOf ev) (sourceTyObj storeLookup ev extra).1 (trigOf ev)
          (cleanPath path) (bubblePathsStr (cleanPath path)) with
      | .error e => .error e
      | .ok bs => .ok (d ++ bs)

/-- Whether a filter carries a non-empty `types` constraint (a single
string or a non-empty list). -/
def typesConstrains (f : Filter) : Bool :=
  match f.types with
  | .str _ => true
  | .arr l => !l.isEmpty
  | _ => false

/-! Theorems settling the claims. -/

theorem if_and_keep (b c : Bool) : (if (b && c : Bool) then true else b) = b := by
  cases b <;> simp

theorem save_eq_of_nodeEnd (t t1 : JTree) (p k : String) (v : JsVal) (created : Bool)
    (hcw : createWalk (layersOf (trimTrailing p)) t = .ok (t1, created, .nodeEnd)) :
    Store.save t p k v = .ok (setAt (layersOf (trimTrailing p)) k v t1,
      Store.saveTrace (trimTrailing p) created) := by
  simp only [Store.save]
  rw [hcw]
  dsimp only
  rw [if_and_keep]
  rfl

theorem get_key_eq (t : JTree) (p k : String) (r : Bool) (m : List (String × JTree)) (c : JTree)
    (hw : walk (layersOf (trimTrailing p)) t = some (.node m)) (hg : mget k m = some c) :
    Store.get t p (some k) r = .entry c := by
  simp only [Store.get]
  rw [hw]
  dsimp only
  rw [hg]

/-- Claim C1.  The source computes `createMode` as the `created` flag of
path resolution alone: the guard `if (createMode && !_.has(nodes.current,
key)) createMode = true;` can only fire when `createMode` is already true,
so a new key saved onto a fully existing node does not emit `pre-create`
or `post-create`.  On the empty store, `save('/a','y',0)` creates `/a`
(five trace items, with both create events); the node `/a` then resolves
without creation and lacks the key `x`, yet `save('/a','x',1)` emits only
`pre-update` and `post-update`. -/
theorem c1_createMode_code_bug :
    Store.save (.node []) "/a" "y" (.num 0) =
      .ok (.node [("/a", .node [("y", .prim (.num 0))])],
        [TraceItem.emit "/a" "pre-create", TraceItem.emit "/a" "pre-update",
         TraceItem.assign, TraceItem.emit "/a" "post-create",
         TraceItem.emit "/a" "post-update"]) ∧
    walk ["/a"] (.node [("/a", .node [("y", .prim (.num 0))])]) =
      some (.node [("y", .prim (.num 0))]) ∧
    mhas "x" [("y", JTree.prim (.num 0))] = false ∧
    Store.save (.node [("/a", .node [("y", .prim (.num 0))])]) "/a" "x" (.num 1) =
      .ok (.node [("/a", .node [("y", .prim (.num 0)), ("x", .prim (.num 1))])],
        [TraceItem.emit "/a" "pre-update", TraceItem.assign,
         TraceItem.emit "/a" "post-update"]) :=
  ⟨rfl, rfl, rfl, rfl⟩

/-- Claim C2.  On a store holding only the node `/a`, a keyed `get` on the
unresolvable path `/b` returns `undefined` — exactly the value returned
for an absent key on the existing node `/a` — a keyless `get` assembles
the empty object, a keyless `delete` throws an untyped `TypeError` via the
unguarded access `false.parent`, and a keyed `delete` returns a plain
`false`: no operation surfaces a typed NotFound failure. -/
theorem c2_notfound_code_bug :
    Store.get (.node [("/a", .node [])]) "/b" (some "k") false = .undefined ∧
    Store.get (.node [("/a", .node [])]) "/a" (some "k") false = .undefined ∧
    Store.get (.node [("/a", .node [])]) "/b" none false = .assembled [] ∧
    Store.delete (.node [("/a", .node [])]) "/b" none = .error "TypeError" ∧
    Store.delete (.node [("/a", .node [])]) "/b" (some "k") =
      .ok (false, .node [("/a", .node [])], []) :=
  ⟨rfl, rfl, rfl, rfl, rfl⟩

/-- Claim C6, counterexample, refuting the claim at two explicit inputs.
First, a filter whose `names` value is the empty string: `matchFilter`
passes it through unconditionally (the source checks
`thisFilter.names === \'\'` before the string comparison), while the claimed
symmetric rule would demand the event name be empty and therefore reject
the event name `x`.  Second, a set whose first filter fails to match and
whose second filter carries an invalid `types` value: the loop returns
`false` at the first filter and never raises, while the claimed rule
raises an InvalidFilter error for any filter with an invalid value. -/
theorem c6_counterexample :
    (matchFilter "x" none [Filter.mk FVal.absent (FVal.str "")] = .ok true ∧
     matchFilterClaim "x" none [Filter.mk FVal.absent (FVal.str "")] = .ok false) ∧
    (matchFilter "x" none
        [Filter.mk (FVal.str "a") FVal.absent, Filter.mk FVal.invalid FVal.absent] =
      .ok false ∧
     matchFilterClaim "x" none
        [Filter.mk (FVal.str "a") FVal.absent, Filter.mk FVal.invalid FVal.absent] =
      .error "InvalidFilter") :=
  ⟨⟨rfl, rfl⟩, ⟨rfl, rfl⟩⟩

/-- Claim C4.  Every completed `save` produces the fixed trace: optional
`pre-create`, `pre-update`, the mutation, optional `post-create`,
`post-update`, the optional items present exactly when the create-mode
flag of the call is set, all emitted at the trimmed path; and on the empty
store `save('/a/b','x',1)` creates the nodes `/a` and `/a/b` and emits
`pre-create`, `pre-update`, `post-create`, `post-update` in order at
`/a/b`. -/
theorem c4_save_emission_order :
    (∀ (t : JTree) (p k : String) (v : JsVal) (t' : JTree) (tr : List TraceItem),
        Store.save t p k v = .ok (t', tr) →
        tr = Store.saveTrace (trimTrailing p) (Store.saveCreateMode t p k)) ∧
    Store.save (.node []) "/a/b" "x" (.num 1) =
      .ok (.node [("/a", .node [("/b", .node [("x", .prim (.num 1))])])],
        [TraceItem.emit "/a/b" "pre-create", TraceItem.emit "/a/b" "pre-update",
         TraceItem.assign, TraceItem.emit "/a/b" "post-create",
         TraceItem.emit "/a/b" "post-update"]) := by
  constructor
  · intro t p k v t' tr h
    simp only [Store.save] at h
    unfold Store.saveTrace Store.saveCreateMode
    cases hcw : createWalk (layersOf (trimTrailing p)) t with
    | error e => rw [hcw] at h; cases h
    | ok r =>
        obtain ⟨t1, created, en⟩ := r
        rw [hcw] at h
        dsimp only at h
        rw [if_and_keep] at h
        cases en with
        | undefEnd => cases h
        | primEnd => cases h; rfl
        | nodeEnd => cases h; rfl
  · rfl

/-- Claim C8.  A keyed `delete` whose path resolves but whose key is
absent on the resolved value returns `false`, emits nothing and leaves
the tree untouched. -/
theorem c8_delete_missing_key (t : JTree) (path k : String) (cur : JTree)
    (hres : walk (layersOf (trimTrailing path)) t = some cur)
    (habs : treeHas cur k = false) :
    Store.delete t path (some k) = .ok (false, t, []) := by
  simp only [Store.delete]
  rw [hres]
  simp [habs]

/-- Witness for C8, at the spec example: `delete('/a/b','missing-key')`
on the store produced by `save('/a/b','x',1)` returns `false` with no
emission and no mutation. -/
theorem c8_witness :
    Store.delete (.node [("/a", .node [("/b", .node [("x", .prim (.num 1))])])])
        "/a/b" (some "missing-key") =
      .ok (false, .node [("/a", .node [("/b", .node [("x", .prim (.num 1))])])], []) :=
  c8_delete_missing_key _ "/a/b" "missing-key" (.node [("x", .prim (.num 1))]) rfl rfl

theorem filterTypesFail_eq (tv : FVal) (ty : Option String) (h : validFVal tv = true) :
    filterTypesFail tv ty = .ok (!fMatchTypes tv ty) := by
  cases tv with
  | absent => rfl
  | str s => rfl
  | arr l => simp [filterTypesFail, fMatchTypes, Bool.not_or]
  | invalid => simp [validFVal] at h

theorem filterNamesFail_eq (nv : FVal) (ev : String) (h : validFVal nv = true) :
    filterNamesFail nv ev = .ok (!fMatchNames nv ev) := by
  cases nv with
  | absent => rfl
  | str s =>
      by_cases hs : s = ""
      · subst hs; simp [filterNamesFail, fMatchNames]
      · have hs' : (s == "") = false := by simpa using hs
        simp [filterNamesFail, fMatchNames, hs, hs', Bool.not_or, bne]
  | arr l => simp [filterNamesFail, fMatchNames, Bool.not_or]
  | invalid => simp [validFVal] at h

/-- Claim C6, amended.  `matchFilter` examines the filters in order.  For
filter sets whose constraint values are all valid (strings or arrays of
strings) it returns exactly the conjunction of the per-filter pass
predicates — a `types` constraint passes when absent, an empty list, a
list containing the type or a string equal to the type, and a `names`
constraint additionally passes when it is the empty string.  And it
raises an InvalidFilter error whenever the loop examines a filter whose
`types` or `names` value is invalid: whenever every earlier filter was
valid and matched, and, for an invalid `names` value, the same filter's
`types` constraint also passed. -/
theorem c6_matchFilter_amended (evName : String) (ty : Option String) :
    (∀ fs : List Filter, (∀ f ∈ fs, validFilter f = true) →
        matchFilter evName ty fs = .ok (fs.all (filterMatches evName ty))) ∧
    (∀ (gs : List Filter) (g : Filter) (hs : List Filter),
        (∀ f ∈ gs, validFilter f = true ∧ filterMatches evName ty f = true) →
        (validFVal g.types = false ∨
          (fMatchTypes g.types ty = true ∧ validFVal g.names = false)) →
        ∃ e, matchFilter evName ty (gs ++ g :: hs) = .error e) := by
  constructor
  · intro fs hv
    induction fs with
    | nil => rfl
    | cons f rest ih =>
        have hf : validFilter f = true := hv f (List.mem_cons_self f rest)
        have hrest : ∀ g ∈ rest, validFilter g = true :=
          fun g hg => hv g (List.mem_cons_of_mem f hg)
        have hft : validFVal f.types = true := by
          revert hf; unfold validFilter; cases validFVal f.types <;> simp
        have hfn : validFVal f.names = true := by
          revert hf; unfold validFilter; cases validFVal f.names <;> simp
        rw [List.all_cons]
        simp only [matchFilter, filterTypesFail_eq f.types ty hft,
          filterNamesFail_eq f.names evName hfn]
        unfold filterMatches
        cases htm : fMatchTypes f.types ty with
        | false => rfl
        | true =>
            cases hnm : fMatchNames f.names evName with
            | false => rfl
            | true => simpa using ih hrest
  · intro gs
    induction gs with
    | nil =>
        intro g hs _ hr
        rcases hr with hinv | ⟨hpass, hninv⟩
        · cases hgt : g.types with
          | invalid =>
              refine ⟨"Invalid types provided, must either be a string or an array of strings", ?_⟩
              simp only [List.nil_append, matchFilter]
              rw [hgt]
              rfl
          | absent => rw [hgt] at hinv; simp [validFVal] at hinv
          | str s => rw [hgt] at hinv; simp [validFVal] at hinv
          | arr l => rw [hgt] at hinv; simp [validFVal] at hinv
        · have htv : validFVal g.types = true := by
            cases hgt : g.types with
            | invalid => rw [hgt] at hpass; simp [fMatchTypes] at hpass
            | absent => rfl
            | str s => rfl
            | arr l => rfl
          have htf : filterTypesFail g.types ty = .ok false := by
            rw [filterTypesFail_eq g.types ty htv, hpass]
            rfl
          cases hgn : g.names with
          | invalid =>
              refine ⟨"Invalid name provided, must either be a string or an array of strings", ?_⟩
              simp only [List.nil_append, matchFilter, htf]
              rw [hgn]
              rfl
          | absent => rw [hgn] at hninv; simp [validFVal] at hninv
          | str s => rw [hgn] at hninv; simp [validFVal] at hninv
          | arr l => rw [hgn] at hninv; simp [validFVal] at hninv
    | cons f gs2 ih =>
        intro g hs hpre hr
        have hf := hpre f (List.mem_cons_self f gs2)
        have hpre2 : ∀ x ∈ gs2, validFilter x = true ∧ filterMatches evName ty x = true :=
          fun x hx => hpre x (List.mem_cons_of_mem f hx)
        obtain ⟨e, he⟩ := ih g hs hpre2 hr
        have hft : validFVal f.types = true := by
          have h1 := hf.1; revert h1; unfold validFilter; cases validFVal f.types <;> simp
        have hfn : validFVal f.names = true := by
          have h1 := hf.1; revert h1; unfold validFilter; cases validFVal f.names <;> simp
        have hm := hf.2
        unfold filterMatches at hm
        rw [Bool.and_eq_true] at hm
        refine ⟨e, ?_⟩
        simp only [List.cons_append, matchFilter, filterTypesFail_eq f.types ty hft, hm.1,
          Bool.not_true]
        simp only [filterNamesFail_eq f.names evName hfn, hm.2, Bool.not_true]
        exact he

/-- Witness for the amended C6 theorem: a valid filter set evaluated
exactly, and a raising position reached behind one matching filter. -/
theorem c6_witness :
    matchFilter "e" (some "user") [Filter.mk (FVal.arr ["user"]) FVal.absent] =
      .ok ([Filter.mk (FVal.arr ["user"]) FVal.absent].all (filterMatches "e" (some "user"))) ∧
    ∃ e, matchFilter "e" (some "user")
        ([Filter.mk (FVal.arr ["user"]) FVal.absent] ++
          Filter.mk FVal.invalid FVal.absent :: []) = .error e :=
  ⟨(c6_matchFilter_amended "e" (some "user")).1 _ (by decide),
   (c6_matchFilter_amended "e" (some "user")).2 [Filter.mk (FVal.arr ["user"]) FVal.absent]
     (Filter.mk FVal.invalid FVal.absent) [] (by decide) (by decide)⟩

theorem mget_mset_self (k : String) (v : JTree) :
    ∀ es, mget k (mset k v es) = some v := by
  intro es
  induction es with
  | nil => simp [mget, mset]
  | cons a rest ih =>
      obtain ⟨k', v'⟩ := a
      by_cases h : k' = k <;> simp [mget, mset, h, ih]

theorem layers_childKey (p : String) :
    ∀ x ∈ layersOf p, isChildKey x = true := by
  intro x hx
  obtain ⟨s, -, rfl⟩ := List.mem_map.mp hx
  rfl

theorem wfbL_mget (k : String) (c : JTree) :
    ∀ es, wfbL es = true → isChildKey k = true → mget k es = some c →
    ∃ es2, c = .node es2 ∧ wfbL es2 = true := by
  intro es
  induction es with
  | nil => intro _ _ hg; cases hg
  | cons a rest ih =>
      obtain ⟨k', v'⟩ := a
      intro hwf hk hg
      rw [wfbL.eq_def] at hwf
      dsimp only at hwf
      rw [Bool.and_eq_true] at hwf
      by_cases h : k' = k
      · subst h
        rw [mget, if_pos rfl] at hg
        cases hg
        rw [if_pos hk] at hwf
        cases c with
        | prim v => cases hwf.1
        | node es2 => exact ⟨es2, rfl, hwf.1⟩
      · rw [mget, if_neg h] at hg
        exact ih hwf.2 hk hg

theorem createWalk_set_walk :
    ∀ (layers : List String) (es : List (String × JTree)),
      wfbL es = true → (∀ x ∈ layers, isChildKey x = true) →
      ∀ (key : String) (v : JsVal),
      ∃ es1 created m,
        createWalk layers (.node es) = .ok (.node es1, created, .nodeEnd) ∧
        walk layers (setAt layers key v (.node es1)) = some (.node m) ∧
        mget key m = some (.prim v) := by
  intro layers
  induction layers with
  | nil =>
      intro es hwf _ key v
      exact ⟨es, false, mset key (.prim v) es, rfl, rfl, mget_mset_self key _ es⟩
  | cons k rest ih =>
      intro es hwf hck key v
      have hk : isChildKey k = true := hck k (List.mem_cons_self k rest)
      have hck' : ∀ x ∈ rest, isChildKey x = true :=
        fun x hx => hck x (List.mem_cons_of_mem k hx)
      cases hm : mget k es with
      | none =>
          obtain ⟨es1, created, m, hcw, hw, hg⟩ := ih [] (by simp [wfbL]) hck' key v
          refine ⟨mset k (.node es1) es, true, m, ?_, ?_, hg⟩
          · simp only [createWalk, hm, hcw]
          · simp only [setAt, mget_mset_self, walk]
            exact hw
      | some c =>
          obtain ⟨es2, rfl, hwf2⟩ := wfbL_mget k c es hwf hk hm
          obtain ⟨es1, created, m, hcw, hw, hg⟩ := ih es2 hwf2 hck' key v
          refine ⟨mset k (.node es1) es, created, m, ?_, ?_, hg⟩
          · simp only [createWalk, hm, hcw]
          · simp only [setAt, mget_mset_self, walk]
            exact hw

/-- Claim C5.  From any well-formed store (child keys hold nodes, the §3
invariant of the spec), `save(p, k, v)` succeeds and a following
`get(p, k)` returns exactly `v`, for every path text `p` and key `k`. -/
theorem c5_save_then_get (es : List (String × JTree)) (p k : String) (v : JsVal)
    (hwf : wfbL es = true) :
    ∃ (t' : JTree) (tr : List TraceItem),
      Store.save (.node es) p k v = .ok (t', tr) ∧
      Store.get t' p (some k) false = .entry (.prim v) := by
  obtain ⟨es1, created, m, hcw, hw, hg⟩ :=
    createWalk_set_walk (layersOf (trimTrailing p)) es hwf (layers_childKey _) k v
  exact ⟨setAt (layersOf (trimTrailing p)) k v (.node es1),
    Store.saveTrace (trimTrailing p) created,
    save_eq_of_nodeEnd (.node es) (.node es1) p k v created hcw,
    get_key_eq _ p k false m (.prim v) hw hg⟩

/-- Witness for C5: save then get on the empty store at `/a/b`. -/
theorem c5_witness :
    ∃ (t' : JTree) (tr : List TraceItem),
      Store.save (.node []) "/a/b" "x" (.num 1) = .ok (t', tr) ∧
      Store.get t' "/a/b" (some "x") false = .entry (.prim (.num 1)) :=
  c5_save_then_get [] "/a/b" "x" (.num 1) (by simp [wfbL])

theorem dropWhile_append_all (p : Char → Bool) :
    ∀ (a b : List Char), (∀ x ∈ a, p x = true) → (a ++ b).dropWhile p = b.dropWhile p := by
  intro a b h
  induction a with
  | nil => rfl
  | cons c cs ih =>
      have hc : p c = true := h c (List.mem_cons_self c cs)
      rw [List.cons_append, List.dropWhile_cons, if_pos hc]
      exact ih (fun x hx => h x (List.mem_cons_of_mem c hx))

theorem chopLast_append (pre s : List Char) (hne : s ≠ []) (hns : '/' ∉ s) :
    chopLast (pre ++ '/' :: s) = pre := by
  unfold chopLast
  rw [List.reverse_append, List.reverse_cons, List.append_assoc]
  rw [dropWhile_append_all _ s.reverse (['/'] ++ pre.reverse)
    (fun x hx => by
      have : x ≠ '/' := fun hxe => hns (hxe ▸ List.mem_reverse.mp hx)
      simpa using this)]
  rw [List.singleton_append, List.dropWhile_cons]
  simp

theorem render_concat (xs : List (List Char)) (x : List Char) :
    render (xs ++ [x]) = render xs ++ '/' :: x := by
  simp [render, List.foldl_append]

theorem render_ne_nil (segs : List (List Char)) (h : segs ≠ []) : render segs ≠ [] := by
  rcases List.eq_nil_or_concat segs with rfl | ⟨xs, x, rfl⟩
  · exact absurd rfl h
  · rw [List.concat_eq_append, render_concat]; simp

theorem render_ne_root (segs : List (List Char)) (hne : segs ≠ [])
    (hwf : ∀ s ∈ segs, s ≠ []) : render segs ≠ ['/'] := by
  rcases List.eq_nil_or_concat segs with rfl | ⟨xs, x, rfl⟩
  · exact absurd rfl hne
  · rw [List.concat_eq_append, render_concat]
    intro heq
    have hx : x ≠ [] := hwf x (by simp)
    have hlen := congrArg List.length heq
    simp [List.length_append] at hlen
    have hx1 : 0 < x.length := List.length_pos.mpr hx
    omega

theorem ancestors_concat (xs : List (List Char)) (x : List Char) (hxs : xs ≠ []) :
    ancestors (xs ++ [x]) = render xs :: ancestors xs := by
  have hn : xs.length ≠ 0 := by simpa using hxs
  unfold ancestors
  have hlen : (xs ++ [x]).length = xs.length + 1 := by simp
  rw [hlen, List.range_succ, List.reverse_append]
  simp only [List.reverse_cons, List.reverse_nil, List.nil_append, List.singleton_append,
    List.map_cons]
  congr 1
  · rw [if_neg hn, List.take_append_of_le_length (Nat.le_refl _), List.take_length]
  · apply List.map_congr_left
    intro i hi
    have hi' : i < xs.length := List.mem_range.mp (List.mem_reverse.mp hi)
    by_cases h0 : i = 0
    · simp [h0]
    · rw [if_neg h0, if_neg h0, List.take_append_of_le_length (Nat.le_of_lt hi')]

theorem bubble_render :
    ∀ (segs : List (List Char)), segs ≠ [] → (∀ s ∈ segs, s ≠ [] ∧ '/' ∉ s) →
      bubblePaths (render segs) = ancestors segs := by
  intro segs
  induction segs using List.reverseRecOn with
  | nil => intro hne _; exact absurd rfl hne
  | append_singleton xs x ih =>
      intro _ hwf
      have hx := hwf x (by simp)
      rw [render_concat, bubblePaths_eq]
      have hmem : '/' ∈ render xs ++ '/' :: x := by simp
      rw [if_pos hmem, chopLast_append (render xs) x hx.1 hx.2]
      rcases eq_or_ne xs [] with rfl | hxs
      · rw [if_pos (show render [] = [] from rfl)]
        simp [ancestors, List.range_succ]
      · rw [if_neg (render_ne_nil xs hxs)]
        rw [ih hxs (fun s hs => hwf s (by simp [hs]))]
        rw [ancestors_concat xs x hxs]

theorem bubble_root :
    ∀ (segs : List (List Char)), segs ≠ [] → (∀ s ∈ segs, s ≠ [] ∧ '/' ∉ s) →
      ∃ A, bubblePaths (render segs) = A ++ [['/']] ∧ ∀ q ∈ A, q ≠ ['/'] := by
  intro segs
  induction segs using List.reverseRecOn with
  | nil => intro hne _; exact absurd rfl hne
  | append_singleton xs x ih =>
      intro _ hwf
      have hx := hwf x (by simp)
      rw [render_concat, bubblePaths_eq]
      have hmem : '/' ∈ render xs ++ '/' :: x := by simp
      rw [if_pos hmem, chopLast_append (render xs) x hx.1 hx.2]
      rcases eq_or_ne xs [] with rfl | hxs
      · rw [if_pos (show render [] = [] from rfl)]
        exact ⟨[], rfl, by simp⟩
      · rw [if_neg (render_ne_nil xs hxs)]
        obtain ⟨A, hA, hAq⟩ := ih hxs (fun s hs => hwf s (by simp [hs]))
        refine ⟨render xs :: A, by rw [hA, List.cons_append], ?_⟩
        intro q hq
        rcases List.mem_cons.mp hq with rfl | hq2
        · exact render_ne_root xs hxs (fun s hs => (hwf s (by simp [hs])).1)
        · exact hAq q hq2

/-- Claim C3.  For every canonical absolute path (nonempty, slash-free
segments), the bubbling climb of `bubbleEvent` visits exactly the strict
ancestors of the path, one segment up at a time, nearest first, ending
with a single dispatch at the root path and none past it; and on a
concrete Bubbler, a subscriber registered at `/a` with `bubble=true`
receives an event emitted at `/a/b/c` while a subscriber at `/a` with
`bubble=false` does not (the direct bus fires only at the exact path). -/
theorem c3_bubble_dispatch (segs : List (List Char)) (hne : segs ≠ [])
    (hwf : ∀ s ∈ segs, s ≠ [] ∧ '/' ∉ s) :
    bubblePaths (render segs) = ancestors segs ∧
    (∃ A, bubblePaths (render segs) = A ++ [['/']] ∧ ∀ q ∈ A, q ≠ ['/']) ∧
    (∃ l, emit (subscribe (subscribe initBubbler "/a" 0 (some ⟨some true, none, none⟩))
          "/a" 1 (some ⟨some false, none, none⟩)) "/a/b/c" (.name "ping") none [] = .ok l ∧
        (l.map Invocation.cb).contains 0 = true ∧
        (l.map Invocation.cb).contains 1 = false) :=
  ⟨bubble_render segs hne hwf, bubble_root segs hne hwf,
    ⟨[⟨0, 0, .bubble, "/a", "/a", "ping", "/a/b/c", false, none⟩], rfl, rfl, rfl⟩⟩

/-- Witness for C3, at the two-segment path `/ab/c`. -/
theorem c3_witness :
    bubblePaths (render [['a', 'b'], ['c']]) = ancestors [['a', 'b'], ['c']] ∧
    (∃ A, bubblePaths (render [['a', 'b'], ['c']]) = A ++ [['/']] ∧ ∀ q ∈ A, q ≠ ['/']) ∧
    (∃ l, emit (subscribe (subscribe initBubbler "/a" 0 (some ⟨some true, none, none⟩))
          "/a" 1 (some ⟨some false, none, none⟩)) "/a/b/c" (.name "ping") none [] = .ok l ∧
        (l.map Invocation.cb).contains 0 = true ∧
        (l.map Invocation.cb).contains 1 = false) :=
  c3_bubble_dispatch [['a', 'b'], ['c']] (by decide) (by decide)

theorem dispatchAt_mem (st : BubblerState) (bus : Bus) (q evName : String)
    (sTy : Option String) (sTrig : Bool) (sp : String) :
    ∀ (entries : List (String × Nat)) (l : List Invocation),
      dispatchAt st bus q evName sTy sTrig sp entries = .ok l →
      ∀ inv ∈ l, inv.bus = bus ∧ inv.regPath = q ∧ inv.argPath = q ∧ inv.srcPath = sp ∧
        ∃ w, lookupW st inv.wid = some w ∧ inv.cb = w.cb ∧
          wrapperFires w evName sTy sTrig = .ok true := by
  intro entries
  induction entries with
  | nil =>
      intro l h inv hinv
      cases h
      cases hinv
  | cons e rest ih =>
      obtain ⟨rp, wid⟩ := e
      intro l h inv hinv
      simp only [dispatchAt] at h
      by_cases hrq : rp = q
      · rw [if_pos hrq] at h
        cases hlw : lookupW st wid with
        | none =>
            rw [hlw] at h
            dsimp only at h
            exact ih l h inv hinv
        | some w =>
            rw [hlw] at h
            dsimp only at h
            cases hwfi : wrapperFires w evName sTy sTrig with
            | error e2 =>
                rw [hwfi] at h
                dsimp only at h
                cases h
            | ok fire =>
                rw [hwfi] at h
                dsimp only at h
                cases hrec : dispatchAt st bus q evName sTy sTrig sp rest with
                | error e2 =>
                    rw [hrec] at h
                    dsimp only at h
                    cases h
                | ok tl =>
                    rw [hrec] at h
                    dsimp only at h
                    cases fire with
                    | false =>
                        simp at h
                        subst h
                        exact ih tl hrec inv hinv
                    | true =>
                        simp at h
                        subst h
                        rcases List.mem_cons.mp hinv with rfl | h2
                        · exact ⟨rfl, hrq, rfl, rfl, w, hlw, rfl, hwfi⟩
                        · exact ih tl hrec inv h2
      · rw [if_neg hrq] at h
        exact ih l h inv hinv

theorem goBubble_mem (st : BubblerState) (evName : String) (sTy : Option String)
    (sTrig : Bool) (sp : String) :
    ∀ (qs : List String) (l : List Invocation),
      goBubble st evName sTy sTrig sp qs = .ok l →
      ∀ inv ∈ l, inv.bus = .bubble ∧ inv.regPath ∈ qs ∧ inv.argPath = inv.regPath ∧
        inv.srcPath = sp ∧
        ∃ w, lookupW st inv.wid = some w ∧ inv.cb = w.cb ∧
          wrapperFires w evName sTy sTrig = .ok true := by
  intro qs
  induction qs with
  | nil => intro l h inv hinv; cases h; cases hinv
  | cons q rest ih =>
      intro l h inv hinv
      simp only [goBubble] at h
      cases h1 : dispatchAt st .bubble q evName sTy sTrig sp st.bubbleBus with
      | error e =>
          rw [h1] at h
          dsimp only at h
          cases h
      | ok l1 =>
          rw [h1] at h
          dsimp only at h
          cases h2 : goBubble st evName sTy sTrig sp rest with
          | error e =>
              rw [h2] at h
              dsimp only at h
              cases h
          | ok l2 =>
              rw [h2] at h
              dsimp only at h
              cases h
              rcases List.mem_append.mp hinv with hm | hm
              · obtain ⟨hb, hr, ha, hs, hw⟩ :=
                  dispatchAt_mem st .bubble q evName sTy sTrig sp st.bubbleBus l1 h1 inv hm
                exact ⟨hb, by rw [hr]; exact List.mem_cons_self q rest, by rw [ha, hr], hs, hw⟩
              · obtain ⟨hb, hr, ha, hs, hw⟩ := ih l2 h2 inv hm
                exact ⟨hb, List.mem_cons_of_mem q hr, ha, hs, hw⟩

/-- Claim C10.  Every invocation produced by an emission carries the
cleaned emission path in its source descriptor, while a bubble-bus
invocation sees `args[0]` rewritten to the ancestor path it was registered
at — one of the `bubblePaths` climb steps. -/
theorem c10_bubble_argpath (st : BubblerState) (p : String) (ev : EventArg)
    (sl : Option (Option String × Option JsVal)) (extra : List JsVal)
    (l : List Invocation) (h : emit st p ev sl extra = .ok l) :
    ∀ inv ∈ l, inv.srcPath = cleanPath p ∧
      (inv.bus = .direct → inv.argPath = cleanPath p) ∧
      (inv.bus = .bubble → inv.argPath = inv.regPath ∧
        inv.regPath ∈ bubblePathsStr (cleanPath p)) := by
  intro inv hinv
  simp only [emit] at h
  cases h1 : dispatchAt st .direct (cleanPath p) (evNameOf ev)
      (sourceTyObj sl ev extra).1 (trigOf ev) (cleanPath p) st.eventBus with
  | error e =>
      rw [h1] at h
      dsimp only at h
      cases h
  | ok d =>
      rw [h1] at h
      dsimp only at h
      cases h2 : goBubble st (evNameOf ev) (sourceTyObj sl ev extra).1 (trigOf ev)
          (cleanPath p) (bubblePathsStr (cleanPath p)) with
      | error e =>
          rw [h2] at h
          dsimp only at h
          cases h
      | ok bs =>
          rw [h2] at h
          dsimp only at h
          cases h
          rcases List.mem_append.mp hinv with hm | hm
          · obtain ⟨hb, hr, ha, hs, -⟩ :=
              dispatchAt_mem st .direct (cleanPath p) (evNameOf ev)
                (sourceTyObj sl ev extra).1 (trigOf ev) (cleanPath p) st.eventBus d h1 inv hm
            refine ⟨hs, fun _ => ha, fun hbb => ?_⟩
            rw [hb] at hbb
            cases hbb
          · obtain ⟨hb, hr, ha, hs, -⟩ :=
              goBubble_mem st (evNameOf ev) (sourceTyObj sl ev extra).1 (trigOf ev)
                (cleanPath p) (bubblePathsStr (cleanPath p)) bs h2 inv hm
            refine ⟨hs, fun hbd => ?_, fun _ => ⟨ha, hr⟩⟩
            rw [hb] at hbd
            cases hbd

/-- Witness for C10, at a store-less Bubbler with one subscriber at `/a`
and an emission at `/a/b`. -/
theorem c10_witness :
    (Invocation.mk 0 3 .bubble "/a" "/a" "e" "/a/b" false none).srcPath = cleanPath "/a/b" :=
  (c10_bubble_argpath (subscribe initBubbler "/a" 3 none) "/a/b" (.name "e") none []
    [⟨0, 3, .bubble, "/a", "/a", "e", "/a/b", false, none⟩] rfl
    ⟨0, 3, .bubble, "/a", "/a", "e", "/a/b", false, none⟩ (List.mem_singleton.mpr rfl)).1

theorem wrapperFires_matchFilter (w : Wrapper) (evName : String) (sTy : Option String)
    (sTrig : Bool) (h : wrapperFires w evName sTy sTrig = .ok true) :
    matchFilter evName sTy w.filters = .ok true := by
  unfold wrapperFires at h
  cases hm : matchFilter evName sTy w.filters with
  | error e =>
      rw [hm] at h
      cases h
  | ok m =>
      rw [hm] at h
      dsimp only at h
      have hmt := Except.ok.inj h
      rw [Bool.and_eq_true] at hmt
      rw [hmt.1]

theorem matchFilter_ok_true_no_types (ev : String) :
    ∀ (fs : List Filter), matchFilter ev none fs = .ok true →
      ∀ f ∈ fs, typesConstrains f = false := by
  intro fs
  induction fs with
  | nil => intro _ f hf; cases hf
  | cons g rest ih =>
      intro h f hf
      cases hgt : g.types with
      | invalid =>
          simp only [matchFilter] at h
          rw [hgt] at h
          rw [show filterTypesFail FVal.invalid none =
            Except.error "Invalid types provided, must either be a string or an array of strings"
            from rfl] at h
          dsimp only at h
          cases h
      | str s =>
          simp only [matchFilter] at h
          rw [hgt] at h
          rw [show filterTypesFail (FVal.str s) none = Except.ok true from rfl] at h
          dsimp only at h
          cases h
      | absent =>
          simp only [matchFilter] at h
          rw [hgt] at h
          rw [show filterTypesFail FVal.absent none = Except.ok false from rfl] at h
          dsimp only at h
          have hrest : matchFilter ev none rest = .ok true := by
            cases hfn : filterNamesFail g.names ev with
            | error e => simp [hfn] at h
            | ok b =>
                cases b with
                | true =>
                    rw [hfn] at h
                    dsimp only at h
                    cases h
                | false =>
                    rw [hfn] at h
                    dsimp only at h
                    exact h
          rcases List.mem_cons.mp hf with rfl | hf2
          · simp [typesConstrains, hgt]
          · exact ih hrest f hf2
      | arr lst =>
          cases lst with
          | nil =>
              simp only [matchFilter] at h
              rw [hgt] at h
              rw [show filterTypesFail (FVal.arr []) none = Except.ok false from rfl] at h
              dsimp only at h
              have hrest : matchFilter ev none rest = .ok true := by
                cases hfn : filterNamesFail g.names ev with
                | error e => simp [hfn] at h
                | ok b =>
                    cases b with
                    | true =>
                        rw [hfn] at h
                        dsimp only at h
                        cases h
                    | false =>
                        rw [hfn] at h
                        dsimp only at h
                        exact h
              rcases List.mem_cons.mp hf with rfl | hf2
              · simp [typesConstrains, hgt]
              · exact ih hrest f hf2
          | cons a as =>
              simp only [matchFilter] at h
              rw [hgt] at h
              rw [show filterTypesFail (FVal.arr (a :: as)) none = Except.ok true from rfl] at h
              dsimp only at h
              cases h

/-- Claim C7.  Through the Giza facade the Bubbler has no store, so every
event source carries no type; a callback that does get invoked therefore
belongs to a subscription none of whose filters carries a non-empty
`types` constraint — equivalently, a subscription with such a filter is
never invoked. -/
theorem c7_facade_types_filter (st : BubblerState) (p : String) (ev : EventArg)
    (extra : List JsVal) (l : List Invocation)
    (h : emit st p ev none extra = .ok l)
    (inv : Invocation) (hinv : inv ∈ l)
    (w : Wrapper) (hw : lookupW st inv.wid = some w)
    (f : Filter) (hf : f ∈ w.filters) :
    typesConstrains f = false := by
  have hty : (sourceTyObj none ev extra).1 = none := rfl
  simp only [emit, hty] at h
  have hfires : wrapperFires w (evNameOf ev) none (trigOf ev) = .ok true := by
    cases h1 : dispatchAt st .direct (cleanPath p) (evNameOf ev) none (trigOf ev)
        (cleanPath p) st.eventBus with
    | error e =>
        rw [h1] at h
        dsimp only at h
        cases h
    | ok d =>
        rw [h1] at h
        dsimp only at h
        cases h2 : goBubble st (evNameOf ev) none (trigOf ev) (cleanPath p)
            (bubblePathsStr (cleanPath p)) with
        | error e =>
            rw [h2] at h
            dsimp only at h
            cases h
        | ok bs =>
            rw [h2] at h
            dsimp only at h
            cases h
            rcases List.mem_append.mp hinv with hm | hm
            · obtain ⟨-, -, -, -, w2, hw2, -, hfi⟩ :=
                dispatchAt_mem st .direct (cleanPath p) (evNameOf ev) none (trigOf ev)
                  (cleanPath p) st.eventBus d h1 inv hm
              have hww : w2 = w := Option.some.inj (hw2.symm.trans hw)
              rw [hww] at hfi
              exact hfi
            · obtain ⟨-, -, -, -, w2, hw2, -, hfi⟩ :=
                goBubble_mem st (evNameOf ev) none (trigOf ev) (cleanPath p)
                  (bubblePathsStr (cleanPath p)) bs h2 inv hm
              have hww : w2 = w := Option.some.inj (hw2.symm.trans hw)
              rw [hww] at hfi
              exact hfi
  exact matchFilter_ok_true_no_types (evNameOf ev) w.filters
    (wrapperFires_matchFilter w (evNameOf ev) none (trigOf ev) hfires) f hf

/-- Witness for C7: one store-less subscription with the placeholder
filter fires, and that filter indeed carries no types constraint. -/
theorem c7_witness :
    typesConstrains (Filter.mk FVal.absent FVal.absent) = false :=
  c7_facade_types_filter (subscribe initBubbler "/a" 3 none) "/a/b" (.name "e") []
    [⟨0, 3, .bubble, "/a", "/a", "e", "/a/b", false, none⟩] rfl
    ⟨0, 3, .bubble, "/a", "/a", "e", "/a/b", false, none⟩ (List.mem_singleton.mpr rfl)
    (Wrapper.mk 3 [Filter.mk FVal.absent FVal.absent] true) rfl
    (Filter.mk FVal.absent FVal.absent) (List.mem_singleton.mpr rfl)

theorem filter_after_remove_eq (L : List (String × Nat)) (p : String) :
    (L.filter (fun e => e.1 != p)).filter (fun e => e.1 == p) = [] := by
  rw [List.filter_filter]
  apply List.filter_eq_nil_iff.mpr
  intro a _
  simp [bne]

theorem filter_frame_of_ne (L : List (String × Nat)) (p q : String) (hq : q ≠ p) :
    (L.filter (fun e => e.1 != p)).filter (fun e => e.1 == q) =
      L.filter (fun e => e.1 == q) := by
  rw [List.filter_filter]
  apply List.filter_congr
  intro a _
  by_cases hac : a.1 = q
  · have h1 : (a.1 == q) = true := beq_iff_eq.mpr hac
    have h2 : (a.1 == p) = false := beq_eq_false_iff_ne.mpr (by rw [hac]; exact hq)
    simp [h1, h2, bne]
  · have h1 : (a.1 == q) = false := beq_eq_false_iff_ne.mpr hac
    simp [h1]

/-- Claim C9.  `clearSubscriptions(p)` leaves no listener at exactly `p`
on either bus, leaves the listener lists at every other path untouched on
both buses, and drops exactly those `$callbacks` bookkeeping entries whose
wrapper is among the listeners registered at `p`. -/
theorem c9_clearSubscriptions (st : BubblerState) (p : String) :
    ((clearSubscriptions st p).eventBus.filter (fun e => e.1 == p) = [] ∧
     (clearSubscriptions st p).bubbleBus.filter (fun e => e.1 == p) = []) ∧
    (∀ q : String, q ≠ p →
      (clearSubscriptions st p).eventBus.filter (fun e => e.1 == q) =
        st.eventBus.filter (fun e => e.1 == q) ∧
      (clearSubscriptions st p).bubbleBus.filter (fun e => e.1 == q) =
        st.bubbleBus.filter (fun e => e.1 == q)) ∧
    (∀ (c w : Nat), (c, w) ∈ st.callbacks →
      ((c, w) ∈ (clearSubscriptions st p).callbacks ↔
        (listenersAt st p).contains w = false)) := by
  refine ⟨⟨?_, ?_⟩, ?_, ?_⟩
  · exact filter_after_remove_eq st.eventBus p
  · exact filter_after_remove_eq st.bubbleBus p
  · intro q hq
    exact ⟨filter_frame_of_ne st.eventBus p q hq, filter_frame_of_ne st.bubbleBus p q hq⟩
  · intro c w hm
    have hc : (clearSubscriptions st p).callbacks =
        st.callbacks.filter (fun cw => !(listenersAt st p).contains cw.2) := rfl
    rw [hc, List.mem_filter]
    constructor
    · rintro ⟨-, hp⟩
      simpa using hp
    · intro hp
      exact ⟨hm, by simpa using hp⟩

/-- Witness for C9: clearing `/a` on a two-subscriber bus keeps the root
path listener list intact. -/
theorem c9_witness :
    (clearSubscriptions (subscribe (subscribe initBubbler "/a" 0 none) "/" 1 none)
        "/a").eventBus.filter (fun e => e.1 == "/") =
      (subscribe (subscribe initBubbler "/a" 0 none) "/" 1 none).eventBus.filter
        (fun e => e.1 == "/") :=
  ((c9_clearSubscriptions (subscribe (subscribe initBubbler "/a" 0 none) "/" 1 none)
    "/a").2.1 "/" (by decide)).1

/-- Witness for the universal part of C4, at the concrete empty-store save. -/
theorem c4_witness :
    ([TraceItem.emit "/a/b" "pre-create", TraceItem.emit "/a/b" "pre-update",
      TraceItem.assign, TraceItem.emit "/a/b" "post-create",
      TraceItem.emit "/a/b" "post-update"] : List TraceItem) =
      Store.saveTrace (trimTrailing "/a/b") (Store.saveCreateMode (.node []) "/a/b" "x") :=
  c4_save_emission_order.1 (.node []) "/a/b" "x" (.num 1)
    (.node [("/a", .node [("/b", .node [("x", .prim (.num 1))])])])
    [TraceItem.emit "/a/b" "pre-create", TraceItem.emit "/a/b" "pre-update",
     TraceItem.assign, TraceItem.emit "/a/b" "post-create",
     TraceItem.emit "/a/b" "post-update"] rfl

end Giza
